import Mathlib

/-!
Verification of the retry decision engine: stop/success condition state
machines, backoff delay strategies, and the attempt loop / final-outcome
logic, shallowly embedded from the Go sources in `pkg/retry`.

Modelling conventions:
* `time.Duration` values are modelled as `Int` (nanoseconds), idealizing
  away 64-bit overflow except where the source itself guards for it.
* `float64` arithmetic is modelled as exact arithmetic over `ℚ`; the
  `float64 → time.Duration` conversion is modelled as truncation toward
  zero (`ratTrunc`), which is exact for the non-negative values arising
  here.
* A Go `context.Context` produced by `WithTimeout` is modelled by its
  deadline (a `Nat` timestamp) together with a `cancelled` flag; its
  `Err()` is non-nil exactly when the deadline has passed or the context
  was cancelled.  Logical time is threaded as an explicit `now : Nat`.
* Compiled regular expressions (`regexp.Regexp`) are abstracted as the
  boolean matching function they denote; the constructors that silently
  fall back from an invalid regex to literal substring search simply
  store the corresponding matching function.
* `CompositeCondition` is modelled over lists of leaf conditions, the
  shape in which the engine constructs composites.
-/

namespace RetryModel

/-- `LogicOperator` from `condition.go`: how multiple conditions combine. -/
inductive LogicOperator where
  | logicAND
  | logicOR
deriving DecidableEq, Repr

/-- A lifecycle notification delivered to a condition: `StartTry` or `EndTry`. -/
inductive TryEvent where
  | tryStart
  | tryEnd
deriving DecidableEq, Repr

/-- The non-composite condition variants relevant to the engine, each carrying
the mutable state its Go struct holds.

* `stopOnMaxTries maxTries tries` — `StopOnMaxTries` (`backoff_custom.go`).
* `stopOnMaxExecutionTime maxExecutionTime tries deadline cancelled` —
  `StopOnMaxExecutionTime` (`stoponmaxexectime.go`); its `ctx` from
  `context.WithTimeout` is represented by `deadline` and `cancelled`.
* `stopOnExitCode stopCodes lastExitCode shouldStop` — `StopOnExitCode`
  (`stop_exitcode.go`).
* `successOnExitCode successCodes lastExitCode isSuccess` — `SuccessOnExitCode`.
* `successContains pattern matchFn isSuccess` — `SuccessContains`; `matchFn`
  is the matcher denoted by the stored regex, or literal containment when the
  pattern failed to compile.
* `successRegex pattern matchFn isSuccess` — `SuccessRegex` (strictly
  validated at construction; `matchFn` is the compiled regex's matcher). -/
inductive LeafCond where
  | stopOnMaxTries (maxTries : Nat) (tries : Nat)
  | stopOnMaxExecutionTime (maxExecutionTime : Nat) (tries : Nat)
      (deadline : Nat) (cancelled : Bool)
  | stopOnExitCode (stopCodes : List Int) (lastExitCode : Int) (shouldStop : Bool)
  | successOnExitCode (successCodes : List Int) (lastExitCode : Int) (isSuccess : Bool)
  | successContains (pattern : String) (matchFn : String → Bool) (isSuccess : Bool)
  | successRegex (pattern : String) (matchFn : String → Bool) (isSuccess : Bool)

/-- `NewStopOnMaxTries(maxTries)`: fresh counter. -/
def newStopOnMaxTries (maxTries : Nat) : LeafCond :=
  .stopOnMaxTries maxTries 0

/-- `NewStopOnMaxExecTime(maxExecTime)` constructed at time `now`:
`context.WithTimeout` yields deadline `now + maxExecTime`, not yet cancelled. -/
def newStopOnMaxExecTime (maxExecTime : Nat) (now : Nat) : LeafCond :=
  .stopOnMaxExecutionTime maxExecTime 0 (now + maxExecTime) false

/-- `NewStopOnExitCode(codes)`: `lastExitCode` starts at `-1`, `shouldStop` false. -/
def newStopOnExitCode (codes : List Int) : LeafCond :=
  .stopOnExitCode codes (-1) false

/-- `NewSuccessOnExitCode(codes)`: `lastExitCode` starts at `-1`, not yet successful. -/
def newSuccessOnExitCode (codes : List Int) : LeafCond :=
  .successOnExitCode codes (-1) false

/-- `IsLimitReached` of each leaf variant, at logical time `now`.
`StopOnMaxTries`: false when `maxTries = 0`, else `tries >= maxTries`.
`StopOnMaxExecutionTime`: `ctx.Err() != nil`, i.e. cancelled or deadline passed.
The exit-code and success variants return their stored flag. -/
def LeafCond.isLimitReached (now : Nat) : LeafCond → Bool
  | .stopOnMaxTries maxTries tries =>
      if maxTries == 0 then false else decide (maxTries ≤ tries)
  | .stopOnMaxExecutionTime _ _ deadline cancelled =>
      cancelled || decide (deadline ≤ now)
  | .stopOnExitCode _ _ shouldStop => shouldStop
  | .successOnExitCode _ _ isSuccess => isSuccess
  | .successContains _ _ isSuccess => isSuccess
  | .successRegex _ _ isSuccess => isSuccess

/-- `GetCtx().Err() != nil` for a leaf condition.  Only
`StopOnMaxExecutionTime` owns a cancellable context; every other variant
returns `context.Background()`, whose `Err()` is always nil. -/
def LeafCond.ctxErr (now : Nat) : LeafCond → Bool
  | .stopOnMaxExecutionTime _ _ deadline cancelled =>
      cancelled || decide (deadline ≤ now)
  | _ => false

/-- Whether a leaf condition's `GetCtx()` is a cancellable context rather than
`context.Background()` (the test used by `createMergedContext`). -/
def LeafCond.hasCancellableCtx : LeafCond → Bool
  | .stopOnMaxExecutionTime _ _ _ _ => true
  | _ => false

/-- `StartTry`: `StopOnMaxTries` and `StopOnMaxExecutionTime` increment their
try counter; the other variants do nothing. -/
def LeafCond.startTry : LeafCond → LeafCond
  | .stopOnMaxTries maxTries tries => .stopOnMaxTries maxTries (tries + 1)
  | .stopOnMaxExecutionTime d tries deadline cancelled =>
      .stopOnMaxExecutionTime d (tries + 1) deadline cancelled
  | c => c

/-- `EndTry`: `StopOnMaxExecutionTime.EndTry` calls `s.cancel()`, cancelling
its context; every other variant does nothing. -/
def LeafCond.endTry : LeafCond → LeafCond
  | .stopOnMaxExecutionTime d tries deadline _ =>
      .stopOnMaxExecutionTime d tries deadline true
  | c => c

/-- Whether the variant implements `EnhancedConditionRetryer`
(`SetLastExitCode` / `SetLastOutput`). -/
def LeafCond.isEnhanced : LeafCond → Bool
  | .stopOnExitCode _ _ _ => true
  | .successOnExitCode _ _ _ => true
  | .successContains _ _ _ => true
  | .successRegex _ _ _ => true
  | _ => false

/-- `SetLastExitCode(code)`: `StopOnExitCode` and `SuccessOnExitCode` record
the code and recompute their flag as membership in their code list; the
output-pattern variants ignore it. -/
def LeafCond.setLastExitCode (code : Int) : LeafCond → LeafCond
  | .stopOnExitCode stopCodes _ _ =>
      .stopOnExitCode stopCodes code (stopCodes.contains code)
  | .successOnExitCode successCodes _ _ =>
      .successOnExitCode successCodes code (successCodes.contains code)
  | c => c

/-- `SetLastOutput(stdout, stderr)`: the pattern variants match against the
concatenation `stdout ++ stderr` and store the result; the exit-code
variants ignore it. -/
def LeafCond.setLastOutput (stdout stderr : String) : LeafCond → LeafCond
  | .successContains pattern matchFn _ =>
      .successContains pattern matchFn (matchFn (stdout ++ stderr))
  | .successRegex pattern matchFn _ =>
      .successRegex pattern matchFn (matchFn (stdout ++ stderr))
  | c => c

/-- `isSuccessCondition` from `CompositeCondition` (type switch over
`*SuccessOnExitCode`, `*SuccessContains`, `*SuccessRegex`). -/
def LeafCond.isSuccessCondition : LeafCond → Bool
  | .successOnExitCode _ _ _ => true
  | .successContains _ _ _ => true
  | .successRegex _ _ _ => true
  | _ => false

/-- Apply a sequence of `StartTry` / `EndTry` lifecycle notifications. -/
def LeafCond.applyTryEvents (c : LeafCond) : List TryEvent → LeafCond
  | [] => c
  | .tryStart :: rest => c.startTry.applyTryEvents rest
  | .tryEnd :: rest => c.endTry.applyTryEvents rest

/-- Apply a sequence of `SetLastExitCode` feeds (most recent last). -/
def LeafCond.applyExitCodeFeeds (c : LeafCond) (feeds : List Int) : LeafCond :=
  feeds.foldl (fun c code => c.setLastExitCode code) c

/-- Number of `StartTry` notifications in an event sequence. -/
def countStartTry (evs : List TryEvent) : Nat :=
  (evs.filter (· == .tryStart)).length

/-- A condition as used by the engine: either a single leaf condition or a
`CompositeCondition` over a list of leaf conditions.  `cancelled` is the
state of the composite's own `context.WithCancel` context. -/
inductive Cond where
  | leaf (c : LeafCond)
  | composite (logic : LogicOperator) (conditions : List LeafCond) (cancelled : Bool)

/-- `CompositeCondition.IsLimitReached`: success-type sub-conditions are
skipped; with AND logic every remaining sub-condition must be reached, with
OR logic at least one must be. -/
def Cond.isLimitReached (now : Nat) : Cond → Bool
  | .leaf c => c.isLimitReached now
  | .composite .logicAND conds _ =>
      conds.all fun c => c.isSuccessCondition || c.isLimitReached now
  | .composite .logicOR conds _ =>
      conds.any fun c => !c.isSuccessCondition && c.isLimitReached now

/-- `GetCtx().Err() != nil` for an engine condition.  A composite's merged
context (from `createMergedContext`) errs when the composite was cancelled
or any monitored (cancellable) sub-context has erred. -/
def Cond.ctxErr (now : Nat) : Cond → Bool
  | .leaf c => c.ctxErr now
  | .composite _ conds cancelled =>
      cancelled || conds.any fun c => c.hasCancellableCtx && c.ctxErr now

/-- `StartTry` fans out to every sub-condition in list order. -/
def Cond.startTry : Cond → Cond
  | .leaf c => .leaf c.startTry
  | .composite logic conds cancelled =>
      .composite logic (conds.map LeafCond.startTry) cancelled

/-- `EndTry` fans out to every sub-condition in list order. -/
def Cond.endTry : Cond → Cond
  | .leaf c => .leaf c.endTry
  | .composite logic conds cancelled =>
      .composite logic (conds.map LeafCond.endTry) cancelled

/-- A composite always implements `EnhancedConditionRetryer`; a leaf does
iff its variant does. -/
def Cond.isEnhanced : Cond → Bool
  | .leaf c => c.isEnhanced
  | .composite _ _ _ => true

/-- `SetLastExitCode` fans out to the enhanced sub-conditions only. -/
def Cond.setLastExitCode (code : Int) : Cond → Cond
  | .leaf c => .leaf (c.setLastExitCode code)
  | .composite logic conds cancelled =>
      .composite logic
        (conds.map fun c => if c.isEnhanced then c.setLastExitCode code else c)
        cancelled

/-- `SetLastOutput` fans out to the enhanced sub-conditions only. -/
def Cond.setLastOutput (stdout stderr : String) : Cond → Cond
  | .leaf c => .leaf (c.setLastOutput stdout stderr)
  | .composite logic conds cancelled =>
      .composite logic
        (conds.map fun c => if c.isEnhanced then c.setLastOutput stdout stderr else c)
        cancelled

/-- Truncation toward zero, the semantics of Go's `float64 → int64`
conversion (exact on the rationals this model computes with). -/
def ratTrunc (q : ℚ) : Int :=
  if q < 0 then -(⌊-q⌋) else ⌊q⌋

/-- `FixedBackoff` (`backoff.go`). -/
structure FixedBackoff where
  Delay : Int

/-- `FixedBackoff.NextDelay`: the fixed delay, regardless of attempt. -/
def FixedBackoff.NextDelay (f : FixedBackoff) (_attempt : Int) : Int :=
  f.Delay

/-- `ExponentialBackoff` (`backoff.go`).  `Multiplier` is a `float64`,
modelled as `ℚ`. -/
structure ExponentialBackoff where
  BaseDelay : Int
  MaxDelay : Int
  Multiplier : ℚ

/-- `ExponentialBackoff.NextDelay`: `attempt ≤ 0` returns the base;
otherwise `BaseDelay * Multiplier^(attempt-1)` computed in `float64`
(here: exactly in `ℚ`), returned as `MaxDelay` when it exceeds `MaxDelay`
or `math.MaxInt64`, else truncated to a duration.  Note the `MaxDelay`
comparison is not guarded by `MaxDelay > 0`. -/
def ExponentialBackoff.NextDelay (e : ExponentialBackoff) (attempt : Int) : Int :=
  if attempt ≤ 0 then e.BaseDelay
  else
    let delay : ℚ := (e.BaseDelay : ℚ) * e.Multiplier ^ (attempt - 1).toNat
    if (e.MaxDelay : ℚ) < delay then e.MaxDelay
    else if ((2 : ℚ) ^ 63 - 1) < delay then e.MaxDelay
    else ratTrunc delay

/-- `LinearBackoff` (`backoff_linear.go`). -/
structure LinearBackoff where
  BaseDelay : Int
  Increment : Int
  MaxDelay : Int

/-- `LinearBackoff.NextDelay`: `BaseDelay + (attempt-1)*Increment`, capped
at `MaxDelay` only when `MaxDelay > 0`. -/
def LinearBackoff.NextDelay (l : LinearBackoff) (attempt : Int) : Int :=
  if attempt ≤ 0 then l.BaseDelay
  else
    let delay := l.BaseDelay + (attempt - 1) * l.Increment
    if 0 < l.MaxDelay ∧ l.MaxDelay < delay then l.MaxDelay else delay

/-- The Fibonacci sequence seeded `[1, 1]` that `FibonacciBackoff` lazily
extends: `fibSeq n` is the value at 0-based index `n`. -/
def fibSeq : Nat → Nat
  | 0 => 1
  | 1 => 1
  | n + 2 => fibSeq n + fibSeq (n + 1)

/-- `FibonacciBackoff` (`backoff_fibonacci.go`); the cached `sequence` slice
is represented by the pure `fibSeq`, whose values agree with the cache. -/
structure FibonacciBackoff where
  BaseDelay : Int
  MaxDelay : Int

/-- `FibonacciBackoff.NextDelay`: `sequence[attempt-1] * BaseDelay`, capped
at `MaxDelay` only when `MaxDelay > 0`; `attempt ≤ 0` returns the base. -/
def FibonacciBackoff.NextDelay (f : FibonacciBackoff) (attempt : Int) : Int :=
  if attempt ≤ 0 then f.BaseDelay
  else
    let delay := (fibSeq (attempt - 1).toNat : Int) * f.BaseDelay
    if 0 < f.MaxDelay ∧ f.MaxDelay < delay then f.MaxDelay else delay

/-- `JitterBackoff` (`backoff_jitter.go`): wraps another strategy (possibly
nil, hence `Option`) abstracted as its `NextDelay` function, plus a jitter
percentage (`float64`, modelled as `ℚ`). -/
structure JitterBackoff where
  Strategy : Option (Int → Int)
  Jitter : ℚ

/-- `NewJitterBackoff`: clamps the jitter percentage into `[0, 1]`. -/
def NewJitterBackoff (strategy : Option (Int → Int)) (jitter : ℚ) : JitterBackoff :=
  if jitter < 0 then ⟨strategy, 0⟩
  else if 1 < jitter then ⟨strategy, 1⟩
  else ⟨strategy, jitter⟩

/-- `JitterBackoff.NextDelay`.  The crypto-random draw
`rand.Int(rand.Reader, 2^53 - 1)` is modelled by its result `n`, a uniform
integer in `[0, 2^53 - 2]` (the error fallback of the random source is not
modelled).  The float computation is carried out exactly over `ℚ` and the
final `time.Duration` conversion truncates toward zero. -/
def JitterBackoff.NextDelay (j : JitterBackoff) (attempt : Int) (n : Nat) : Int :=
  match j.Strategy with
  | none => 0
  | some f =>
    let baseDelay := f attempt
    if baseDelay = 0 ∨ j.Jitter = 0 then baseDelay
    else
      let jitterRange : ℚ := (baseDelay : ℚ) * j.Jitter
      let maxInt : ℚ := 2 ^ 53 - 1
      let randomFloat : ℚ := (n : ℚ) / maxInt
      let jitterValue : ℚ := (randomFloat * 2 - 1) * jitterRange
      let finalDelay : ℚ := (baseDelay : ℚ) + jitterValue
      if finalDelay < 0 then 0 else ratTrunc finalDelay

/-- An error produced while executing one attempt (`retry.go`):
`ErrEmptyCommand`, a wrapped command failure carrying the exit code, or
`ErrCommandTerminatedBySignal` with the signal number. -/
inductive CmdError where
  | emptyCommand
  | commandFailed (exitCode : Int)
  | terminatedBySignal (signal : Nat)
deriving DecidableEq, Repr

/-- The construction error of `NewRetry`: `ErrConditionNil`. -/
inductive ConstructionError where
  | errConditionNil
deriving DecidableEq, Repr

/-- The error value reported by the engine once the loop exits
(`getFinalError`): a wrapped context cancellation/timeout error,
`ErrMaxTriesReached`, or the last attempt's own error. -/
inductive FinalError where
  | contextError
  | maxTriesReached
  | attemptError (e : CmdError)
deriving DecidableEq, Repr

/-- Accumulator state of the quote-aware command-line splitter. -/
structure SplitState where
  inSingle : Bool
  inDouble : Bool
  current : String
  parts : List String

/-- The single-quote character (code 39). -/
def singleQuoteChar : Char := Char.ofNat 39

/-- The double-quote character (code 34). -/
def doubleQuoteChar : Char := Char.ofNat 34

/-- One step of the splitter: quote characters toggle quoting (and are
stripped), a space outside quotes ends the current part, anything else is
accumulated. -/
def splitStep (st : SplitState) (ch : Char) : SplitState :=
  if ch == singleQuoteChar && !st.inDouble then
    { st with inSingle := !st.inSingle }
  else if ch == doubleQuoteChar && !st.inSingle then
    { st with inDouble := !st.inDouble }
  else if ch == ' ' && !st.inSingle && !st.inDouble then
    if st.current == "" then { st with current := "" }
    else { st with current := "", parts := st.parts ++ [st.current] }
  else
    { st with current := st.current.push ch }

/-- Model of the third-party splitter call in `parseCommand`: split on
spaces honoring single- and double-quoted segments, quotes stripped.  An
empty input yields no parts, so the empty command line parses to `[]`. -/
def splitCommand (s : String) : List String :=
  let st := s.data.foldl splitStep ⟨false, false, "", []⟩
  if st.current == "" then st.parts else st.parts ++ [st.current]

/-- `parseCommand` (`retry.go`): split the command line; an empty result is
`ErrEmptyCommand`. -/
def parseCommand (cmd : String) : Except CmdError (List String) :=
  let splitCmd := splitCommand cmd
  if splitCmd.length = 0 then .error .emptyCommand
  else .ok splitCmd

/-- The outcome of running the external process once: exit code, captured
stdout/stderr, and the attempt error, as produced by
`executeCommandWithPipes`.  The subprocess itself is outside the model, so
each attempt's outcome is an input. -/
structure AttemptResult where
  rc : Int
  stdout : String
  stderr : String
  err : Option CmdError
deriving DecidableEq, Repr

/-- `execCommandWithOutputAndLogger`: a command line that parses empty
reports `(-1, "", "", err)` without launching a process; otherwise the
process runs and the environment-supplied outcome is returned. -/
def execCommandWithOutput (cmd : String) (outcome : AttemptResult) : AttemptResult :=
  match parseCommand cmd with
  | .error e => ⟨-1, "", "", some e⟩
  | .ok _ => outcome

/-- The `Retry` struct (`retry.go`).  The `backoff` strategy is abstracted
as its `NextDelay` function (it only determines sleep lengths, which have
no effect on the recorded state). -/
structure Retry where
  cmd : String
  tries : Nat
  condition : Cond
  backoff : Option (Int → Int)
  lastExitCode : Int
  successConditions : List Cond

/-- `NewRetry(cmd, condition)`: only a nil condition is rejected; the
command string is not inspected at construction time. -/
def NewRetry (cmd : String) (condition : Option Cond) : Except ConstructionError Retry :=
  match condition with
  | none => .error .errConditionNil
  | some c =>
      .ok { cmd := cmd, tries := 0, condition := c, backoff := none,
            lastExitCode := 0, successConditions := [] }

/-- `getLastExitCode`: the exit code recorded by the last execution. -/
def Retry.getLastExitCode (r : Retry) : Int :=
  r.lastExitCode

/-- `checkCompositeForSuccess`: whether any success-type sub-condition of a
composite reports reached (non-recursive type switch). -/
def checkCompositeForSuccess (now : Nat) (conds : List LeafCond) : Bool :=
  conds.any fun c => c.isSuccessCondition && c.isLimitReached now

/-- `isSuccessConditionMet`: any dedicated success condition reached, or —
as a fallback — the main condition is itself a success-type condition that
is reached, or a composite containing a reached success-type condition. -/
def Retry.isSuccessConditionMet (r : Retry) (now : Nat) : Bool :=
  r.successConditions.any (fun c => c.isLimitReached now) ||
    match r.condition with
    | .leaf c => c.isSuccessCondition && c.isLimitReached now
    | .composite _ conds _ => checkCompositeForSuccess now conds

/-- `shouldContinue`: false when the root context is cancelled, the
condition's context has erred, or the condition reports reached. -/
def Retry.shouldContinue (r : Retry) (rootErr : Bool) (now : Nat) : Bool :=
  if rootErr then false
  else !r.condition.ctxErr now && !r.condition.isLimitReached now

/-- `executeSingleTryWithLogger`: `StartTry` on the stop condition then on
every success condition, increment the attempt counter, run the command,
record the exit code, feed exit code and output to the stop condition (if
enhanced) and to every enhanced success condition, then `EndTry` on all of
them; returns the updated state and the attempt error. -/
def Retry.executeSingleTry (r : Retry) (outcome : AttemptResult) :
    Retry × Option CmdError :=
  let cond := r.condition.startTry
  let succs := r.successConditions.map Cond.startTry
  let tries := r.tries + 1
  let res := execCommandWithOutput r.cmd outcome
  let cond := if cond.isEnhanced then
      (cond.setLastExitCode res.rc).setLastOutput res.stdout res.stderr
    else cond
  let succs := succs.map fun c =>
    if c.isEnhanced then (c.setLastExitCode res.rc).setLastOutput res.stdout res.stderr
    else c
  let cond := cond.endTry
  let succs := succs.map Cond.endTry
  ({ r with condition := cond, successConditions := succs, tries := tries,
            lastExitCode := res.rc }, res.err)

/-- `getFinalError`: root context error first, then the condition's context
error, then success-condition override, then `ErrMaxTriesReached` when the
limit is reached and the last attempt erred, else the last attempt's error. -/
def Retry.getFinalError (r : Retry) (rootErr : Bool) (now : Nat)
    (err : Option CmdError) : Option FinalError :=
  if rootErr then some .contextError
  else if r.condition.ctxErr now then some .contextError
  else if r.isSuccessConditionMet now then none
  else if r.condition.isLimitReached now && err.isSome then some .maxTriesReached
  else err.map FinalError.attemptError

/-- `executeRetryLoop` body: `err` is the loop's running attempt-error
variable; `outcomes` supplies each attempt's process outcome.  Logical time
is frozen at `now` for the duration of the run.  An empty `outcomes` list
while the loop still wants to continue ends the recursion (enough fuel is
always supplied in the theorems below). -/
def Retry.executeRetryLoopAux (rootErr : Bool) (now : Nat) :
    Retry → Option CmdError → List AttemptResult → Retry × Option CmdError
  | r, err, outcomes =>
    if r.shouldContinue rootErr now then
      match outcomes with
      | [] => (r, err)
      | outcome :: rest =>
        let next := r.executeSingleTry outcome
        if next.2.isNone || next.1.isSuccessConditionMet now then
          (next.1, if next.1.isSuccessConditionMet now then none else next.2)
        else
          next.1.executeRetryLoopAux rootErr now next.2 rest
    else (r, err)

/-- `executeRetryLoop`: the attempt-error variable starts nil. -/
def Retry.executeRetryLoop (r : Retry) (rootErr : Bool) (now : Nat)
    (outcomes : List AttemptResult) : Retry × Option CmdError :=
  r.executeRetryLoopAux rootErr now none outcomes

/-- `RunWithEnhancedLogger` without the logging side effects: run the loop,
then derive the final error from the terminal state. -/
def Retry.run (r : Retry) (rootErr : Bool) (now : Nat)
    (outcomes : List AttemptResult) : Retry × Option FinalError :=
  let final := r.executeRetryLoop rootErr now outcomes
  (final.1, final.1.getFinalError rootErr now final.2)

/-! ## Helper lemmas -/

theorem countStartTry_nil : countStartTry [] = 0 := rfl

theorem countStartTry_cons_start (evs : List TryEvent) :
    countStartTry (.tryStart :: evs) = countStartTry evs + 1 := rfl

theorem countStartTry_cons_end (evs : List TryEvent) :
    countStartTry (.tryEnd :: evs) = countStartTry evs := rfl

theorem applyTryEvents_stopOnMaxTries (evs : List TryEvent) (m t : Nat) :
    (LeafCond.stopOnMaxTries m t).applyTryEvents evs
      = .stopOnMaxTries m (t + countStartTry evs) := by
  induction evs generalizing t with
  | nil => simp [LeafCond.applyTryEvents, countStartTry_nil]
  | cons ev rest ih =>
    cases ev with
    | tryStart =>
      rw [countStartTry_cons_start]
      show (LeafCond.stopOnMaxTries m t).startTry.applyTryEvents rest = _
      rw [show (LeafCond.stopOnMaxTries m t).startTry = .stopOnMaxTries m (t + 1) from rfl, ih]
      congr 1
      omega
    | tryEnd =>
      rw [countStartTry_cons_end]
      show (LeafCond.stopOnMaxTries m t).endTry.applyTryEvents rest = _
      rw [show (LeafCond.stopOnMaxTries m t).endTry = .stopOnMaxTries m t from rfl, ih]

theorem applyTryEvents_stopOnMaxExecTime (evs : List TryEvent)
    (d t dl : Nat) (c : Bool) :
    (LeafCond.stopOnMaxExecutionTime d t dl c).applyTryEvents evs
      = .stopOnMaxExecutionTime d (t + countStartTry evs) dl
          (c || evs.contains .tryEnd) := by
  induction evs generalizing t c with
  | nil => simp [LeafCond.applyTryEvents, countStartTry_nil]
  | cons ev rest ih =>
    cases ev with
    | tryStart =>
      rw [countStartTry_cons_start]
      show (LeafCond.stopOnMaxExecutionTime d t dl c).startTry.applyTryEvents rest = _
      rw [show (LeafCond.stopOnMaxExecutionTime d t dl c).startTry
            = .stopOnMaxExecutionTime d (t + 1) dl c from rfl, ih]
      simp [List.contains]
      omega
    | tryEnd =>
      rw [countStartTry_cons_end]
      show (LeafCond.stopOnMaxExecutionTime d t dl c).endTry.applyTryEvents rest = _
      rw [show (LeafCond.stopOnMaxExecutionTime d t dl c).endTry
            = .stopOnMaxExecutionTime d t dl true from rfl, ih]
      simp [List.contains]

theorem applyExitCodeFeeds_stopOnExitCode (codes : List Int) (feeds : List Int)
    (l : Int) (s : Bool) :
    (LeafCond.stopOnExitCode codes l s).applyExitCodeFeeds feeds
      = match feeds.getLast? with
        | none => LeafCond.stopOnExitCode codes l s
        | some c => LeafCond.stopOnExitCode codes c (codes.contains c) := by
  induction feeds generalizing l s with
  | nil => rfl
  | cons f rest ih =>
    have h1 : (LeafCond.stopOnExitCode codes l s).applyExitCodeFeeds (f :: rest)
        = (LeafCond.stopOnExitCode codes f (codes.contains f)).applyExitCodeFeeds rest := rfl
    rw [h1, ih]
    cases rest with
    | nil => rfl
    | cons g rest2 =>
      rw [List.getLast?_cons_cons]
      cases hg : (g :: rest2).getLast? with
      | none => simp at hg
      | some c => rfl

theorem composite_and_eq (conds : List LeafCond) (x : Bool) (now : Nat) :
    Cond.isLimitReached now (.composite .logicAND conds x)
      = (conds.filter fun d => !d.isSuccessCondition).all fun d => d.isLimitReached now := by
  induction conds with
  | nil => rfl
  | cons d rest ih =>
    simp only [Cond.isLimitReached, List.all_cons] at ih ⊢
    cases hd : d.isSuccessCondition with
    | true =>
      rw [List.filter_cons_of_neg (by simp [hd]), ← ih]
      simp [hd]
    | false =>
      rw [List.filter_cons_of_pos (by simp [hd]), List.all_cons, ← ih]
      simp [hd]

theorem composite_or_eq (conds : List LeafCond) (x : Bool) (now : Nat) :
    Cond.isLimitReached now (.composite .logicOR conds x)
      = (conds.filter fun d => !d.isSuccessCondition).any fun d => d.isLimitReached now := by
  induction conds with
  | nil => rfl
  | cons d rest ih =>
    simp only [Cond.isLimitReached, List.any_cons] at ih ⊢
    cases hd : d.isSuccessCondition with
    | true =>
      rw [List.filter_cons_of_neg (by simp [hd]), ← ih]
      simp [hd]
    | false =>
      rw [List.filter_cons_of_pos (by simp [hd]), List.any_cons, ← ih]
      simp [hd]

/-! ## Claim theorems -/

/-- C4: `StopOnMaxTries(n)` — over any sequence of lifecycle events, the try
counter equals the number of `StartTry` calls (so `StartTry` increments it
and `EndTry` leaves it unchanged), and `IsLimitReached` is false while fewer
than `n` `StartTry` calls have occurred, true from the `n`-th onward, and
always false when `n = 0`. -/
theorem stopOnMaxTries_spec (n : Nat) (evs : List TryEvent) (now : Nat) :
    (newStopOnMaxTries n).applyTryEvents evs = .stopOnMaxTries n (countStartTry evs) ∧
    ((newStopOnMaxTries n).applyTryEvents evs).isLimitReached now
      = (!(n == 0) && decide (n ≤ countStartTry evs)) := by
  have h := applyTryEvents_stopOnMaxTries evs n 0
  rw [show (0 : Nat) + countStartTry evs = countStartTry evs from by omega] at h
  refine ⟨h, ?_⟩
  rw [show (newStopOnMaxTries n).applyTryEvents evs
        = LeafCond.stopOnMaxTries n (countStartTry evs) from h]
  by_cases hn : n = 0
  · simp [hn, LeafCond.isLimitReached]
  · simp [LeafCond.isLimitReached, hn]

/-- C7: `StopOnExitCode(S)` — after any finite sequence of `SetLastExitCode`
feeds, `IsLimitReached` equals membership of the most recently fed code in
`S`, and is false before any feed. -/
theorem stopOnExitCode_spec (codes : List Int) (feeds : List Int) (now : Nat) :
    ((newStopOnExitCode codes).applyExitCodeFeeds feeds).isLimitReached now
      = (match feeds.getLast? with
         | some c => codes.contains c
         | none => false) := by
  rw [show newStopOnExitCode codes = LeafCond.stopOnExitCode codes (-1) false from rfl,
      applyExitCodeFeeds_stopOnExitCode]
  cases feeds.getLast? with
  | none => rfl
  | some c => rfl

/-- C2 (counterexample): the claim says `StopOnMaxExecutionTime(d)` stays
not-reached until `d` has elapsed regardless of lifecycle calls; but
constructed at time 0 with `d = 100`, after one `StartTry`/`EndTry` cycle it
reports reached already at time 1 (`EndTry` cancels the deadline context). -/
theorem stopOnMaxExecTime_claim_counterexample :
    ((newStopOnMaxExecTime 100 0).startTry.endTry).isLimitReached 1 = true
      ∧ 1 < 100 := by
  exact ⟨rfl, by omega⟩

/-- C2 (amended): `StopOnMaxExecutionTime(d).IsLimitReached()` is true
exactly when its deadline context has erred: either `d` has elapsed since
construction, or the context was cancelled — and `EndTry` cancels it, so it
reports reached from the first `EndTry` onward regardless of elapsed time;
`StartTry` calls leave it unchanged. -/
theorem stopOnMaxExecTime_amended (d t0 now : Nat) (evs : List TryEvent) :
    ((newStopOnMaxExecTime d t0).applyTryEvents evs).isLimitReached now
      = (evs.contains .tryEnd || decide (t0 + d ≤ now)) := by
  rw [show newStopOnMaxExecTime d t0
        = LeafCond.stopOnMaxExecutionTime d 0 (t0 + d) false from rfl,
      applyTryEvents_stopOnMaxExecTime]
  simp [LeafCond.isLimitReached]

/-- C3: `CompositeCondition.IsLimitReached` skips the success-type
sub-conditions; over the remaining ones AND requires all reached (vacuously
true for none), OR requires at least one (false for none); and a composite
over a single non-success condition mirrors that condition. -/
theorem compositeCondition_spec (conds : List LeafCond) (x : Bool) (now : Nat)
    (c : LeafCond) :
    (Cond.isLimitReached now (.composite .logicAND conds x)
      = (conds.filter fun d => !d.isSuccessCondition).all fun d => d.isLimitReached now) ∧
    (Cond.isLimitReached now (.composite .logicOR conds x)
      = (conds.filter fun d => !d.isSuccessCondition).any fun d => d.isLimitReached now) ∧
    (c.isSuccessCondition = false →
      ∀ logic, Cond.isLimitReached now (.composite logic [c] x) = c.isLimitReached now) := by
  refine ⟨composite_and_eq conds x now, composite_or_eq conds x now, ?_⟩
  · intro hc logic
    cases logic with
    | logicAND => simp [Cond.isLimitReached, hc]
    | logicOR => simp [Cond.isLimitReached, hc]

/-- C3 witness: a composite over the single stop condition
`StopOnMaxTries 2 (tries = 2)` mirrors that condition (reached). -/
theorem compositeCondition_spec_witness :
    Cond.isLimitReached 0 (.composite .logicOR [.stopOnMaxTries 2 2] false)
      = LeafCond.isLimitReached 0 (.stopOnMaxTries 2 2) :=
  (compositeCondition_spec [.stopOnMaxTries 2 2] false 0 (.stopOnMaxTries 2 2)).2.2
    rfl .logicOR

theorem execCommandWithOutput_parse_ok (cmd : String) (outcome : AttemptResult)
    (args : List String) (h : parseCommand cmd = .ok args) :
    execCommandWithOutput cmd outcome = outcome := by
  unfold execCommandWithOutput
  rw [h]

/-- C1: once the loop exits, the final outcome follows this precedence: a
cancelled root context or an erred stop-condition context yields the
context (cancellation/timeout) error; else a met success condition yields
nil regardless of the last attempt error; else a reached stop condition
together with a last-attempt error yields `ErrMaxTriesReached`; else the
last attempt's own error (or nil) is propagated. -/
theorem getFinalError_precedence (r : Retry) (rootErr : Bool) (now : Nat)
    (err : Option CmdError) :
    ((rootErr = true ∨ r.condition.ctxErr now = true) →
        r.getFinalError rootErr now err = some .contextError) ∧
    (rootErr = false → r.condition.ctxErr now = false →
        r.isSuccessConditionMet now = true →
        r.getFinalError rootErr now err = none) ∧
    (rootErr = false → r.condition.ctxErr now = false →
        r.isSuccessConditionMet now = false →
        r.condition.isLimitReached now = true → err ≠ none →
        r.getFinalError rootErr now err = some .maxTriesReached) ∧
    (rootErr = false → r.condition.ctxErr now = false →
        r.isSuccessConditionMet now = false →
        (r.condition.isLimitReached now = false ∨ err = none) →
        r.getFinalError rootErr now err = err.map FinalError.attemptError) := by
  unfold Retry.getFinalError
  refine ⟨?_, ?_, ?_, ?_⟩
  · rintro (h | h) <;> simp [h]
  · intro h1 h2 h3
    simp [h1, h2, h3]
  · intro h1 h2 h3 h4 h5
    cases err with
    | none => exact absurd rfl h5
    | some e => simp [h1, h2, h3, h4]
  · intro h1 h2 h3 h4
    rcases h4 with h4 | h4
    · simp [h1, h2, h3, h4]
    · subst h4
      simp [h1, h2, h3]

/-- C1 witness: with a met success condition (exit code 2 accepted) and a
reached `StopOnMaxTries 1` stop condition, the final error is nil. -/
theorem getFinalError_precedence_witness :
    Retry.getFinalError
      { cmd := "x", tries := 1, condition := Cond.leaf (.stopOnMaxTries 1 1),
        backoff := none, lastExitCode := 2,
        successConditions := [Cond.leaf (.successOnExitCode [2] 2 true)] }
      false 0 (some (.commandFailed 2)) = none :=
  (getFinalError_precedence _ false 0 _).2.1 rfl (by decide) (by decide)

/-- C5 (counterexample): the claim says an empty command fails at
construction time; but `NewRetry("", cond)` succeeds — only a nil condition
is rejected at construction. -/
theorem emptyCommand_claim_counterexample :
    NewRetry "" (some (Cond.leaf (newStopOnMaxTries 3)))
      = .ok { cmd := "", tries := 0, condition := Cond.leaf (newStopOnMaxTries 3),
              backoff := none, lastExitCode := 0, successConditions := [] } := rfl

/-- C5 (amended): an empty command passes construction; `ErrEmptyCommand`
surfaces as the first attempt's error, after the predicate `StartTry` calls
and the attempt-counter increment have already taken place, with exit code
-1 recorded and no process launched (the attempt consumes no process
outcome — the result is the same for every supplied outcome). -/
theorem emptyCommand_amended (r : Retry) (outcome outcome2 : AttemptResult)
    (h : r.cmd = "") :
    (r.executeSingleTry outcome).2 = some CmdError.emptyCommand ∧
    (r.executeSingleTry outcome).1.tries = r.tries + 1 ∧
    (r.executeSingleTry outcome).1.getLastExitCode = -1 ∧
    r.executeSingleTry outcome = r.executeSingleTry outcome2 := by
  have hp : parseCommand r.cmd = .error .emptyCommand := by rw [h]; rfl
  have he : ∀ o : AttemptResult,
      execCommandWithOutput r.cmd o = ⟨-1, "", "", some .emptyCommand⟩ := by
    intro o
    unfold execCommandWithOutput
    rw [hp]
  refine ⟨?_, ?_, ?_, ?_⟩ <;>
    simp [Retry.executeSingleTry, he, Retry.getLastExitCode]

/-- C5 witness: the retry built by `NewRetry("", MaxTries 3)` yields
`ErrEmptyCommand` from its first attempt. -/
theorem emptyCommand_amended_witness :
    (Retry.executeSingleTry
      { cmd := "", tries := 0, condition := Cond.leaf (newStopOnMaxTries 3),
        backoff := none, lastExitCode := 0, successConditions := [] }
      ⟨0, "", "", none⟩).2 = some CmdError.emptyCommand :=
  (emptyCommand_amended _ ⟨0, "", "", none⟩ ⟨1, "out", "err", none⟩ rfl).1

/-- C10: when a success condition is met on an attempt whose process exit
code is non-zero, the loop exits reporting no attempt error, while the
recorded last exit code keeps the raw process exit code — it is not
normalized to 0. -/
theorem successOverride_keepsRawExitCode (r : Retry) (outcome : AttemptResult)
    (rest : List AttemptResult) (rootErr : Bool) (now : Nat) (args : List String)
    (hcont : r.shouldContinue rootErr now = true)
    (hparse : parseCommand r.cmd = .ok args)
    (hsucc : (r.executeSingleTry outcome).1.isSuccessConditionMet now = true)
    (hrc : outcome.rc ≠ 0) :
    (r.executeRetryLoop rootErr now (outcome :: rest)).2 = none ∧
    (r.executeRetryLoop rootErr now (outcome :: rest)).1.getLastExitCode = outcome.rc ∧
    (r.executeRetryLoop rootErr now (outcome :: rest)).1.getLastExitCode ≠ 0 := by
  have hloop : r.executeRetryLoop rootErr now (outcome :: rest)
      = ((r.executeSingleTry outcome).1, none) := by
    unfold Retry.executeRetryLoop Retry.executeRetryLoopAux
    rw [hcont]
    simp [hsucc]
  have hlast : (r.executeSingleTry outcome).1.lastExitCode = outcome.rc := by
    simp [Retry.executeSingleTry,
      execCommandWithOutput_parse_ok r.cmd outcome args hparse]
  rw [hloop]
  refine ⟨rfl, ?_, ?_⟩
  · simpa [Retry.getLastExitCode] using hlast
  · rw [Retry.getLastExitCode, hlast]
    exact hrc

/-- C10 witness: command `false` (parses fine), success condition
`SuccessOnExitCode [5]`, an attempt exiting 5 with an error: the loop
reports success (no error) and the recorded exit code stays 5. -/
theorem successOverride_keepsRawExitCode_witness :
    (Retry.executeRetryLoop
      { cmd := "false", tries := 0, condition := Cond.leaf (newStopOnMaxTries 3),
        backoff := none, lastExitCode := 0,
        successConditions := [Cond.leaf (newSuccessOnExitCode [5])] }
      false 0 [⟨5, "", "", some (.commandFailed 5)⟩]).1.getLastExitCode = 5 :=
  (successOverride_keepsRawExitCode
    { cmd := "false", tries := 0, condition := Cond.leaf (newStopOnMaxTries 3),
      backoff := none, lastExitCode := 0,
      successConditions := [Cond.leaf (newSuccessOnExitCode [5])] }
    ⟨5, "", "", some (.commandFailed 5)⟩ []
    false 0 ["false"] (by decide) rfl (by decide) (by decide)).2.1

theorem ratTrunc_of_nonneg (q : ℚ) (h : 0 ≤ q) : ratTrunc q = ⌊q⌋ := by
  unfold ratTrunc
  rw [if_neg (not_lt.mpr h)]

theorem ratTrunc_le_intCast (q : ℚ) (m : Int) (hq : q ≤ (m : ℚ)) (hm : 0 ≤ m) :
    ratTrunc q ≤ m := by
  unfold ratTrunc
  split_ifs with h
  · have h2 : 0 ≤ ⌊-q⌋ := Int.floor_nonneg.mpr (by linarith)
    omega
  · calc ⌊q⌋ ≤ ⌊(m : ℚ)⌋ := Int.floor_le_floor hq
      _ = m := Int.floor_intCast m

theorem capIf_le (maxD delay : Int) (h : 0 < maxD) :
    (if 0 < maxD ∧ maxD < delay then maxD else delay) ≤ maxD := by
  split_ifs with hc
  · exact le_refl maxD
  · omega

theorem capIf_zero (delay : Int) (maxD : Int) (h : maxD = 0) :
    (if 0 < maxD ∧ maxD < delay then maxD else delay) = delay := by
  subst h
  simp

theorem capIf_monotone (maxD dA dB : Int) (hd : dA ≤ dB) :
    (if 0 < maxD ∧ maxD < dA then maxD else dA)
      ≤ (if 0 < maxD ∧ maxD < dB then maxD else dB) := by
  split_ifs <;> omega

theorem capIf_constant (maxD dA dB : Int) (hd : dA ≤ dB) (hmax : 0 < maxD)
    (h : (if 0 < maxD ∧ maxD < dA then maxD else dA) = maxD) :
    (if 0 < maxD ∧ maxD < dB then maxD else dB) = maxD := by
  split_ifs at h ⊢ <;> omega

theorem expResult_eq (maxD : Int) (dq : ℚ) (hmax : (maxD : ℚ) ≤ 2 ^ 63 - 1) :
    (if (maxD : ℚ) < dq then maxD
     else if ((2 : ℚ) ^ 63 - 1) < dq then maxD else ratTrunc dq)
      = (if (maxD : ℚ) < dq then maxD else ratTrunc dq) := by
  split_ifs with h1 h2
  · rfl
  · exfalso
    linarith
  · rfl

theorem expCap_le (maxD : Int) (dq : ℚ) (hmax : 0 < maxD) :
    (if (maxD : ℚ) < dq then maxD
     else if ((2 : ℚ) ^ 63 - 1) < dq then maxD else ratTrunc dq) ≤ maxD := by
  split_ifs with h1 h2
  · exact le_refl maxD
  · exact le_refl maxD
  · exact ratTrunc_le_intCast dq maxD (le_of_not_lt h1) (le_of_lt hmax)

theorem expCap_monotone (maxD : Int) (dA dB : ℚ) (hd : dA ≤ dB) (h0 : 0 ≤ dA)
    (hmax : (maxD : ℚ) ≤ 2 ^ 63 - 1) :
    (if (maxD : ℚ) < dA then maxD
     else if ((2 : ℚ) ^ 63 - 1) < dA then maxD else ratTrunc dA)
      ≤ (if (maxD : ℚ) < dB then maxD
         else if ((2 : ℚ) ^ 63 - 1) < dB then maxD else ratTrunc dB) := by
  rw [expResult_eq maxD dA hmax, expResult_eq maxD dB hmax]
  split_ifs with h1 h2 h2
  · exact le_refl _
  · exfalso
    linarith
  · rw [ratTrunc_of_nonneg dA h0]
    calc ⌊dA⌋ ≤ ⌊(maxD : ℚ)⌋ := Int.floor_le_floor (le_of_not_lt h1)
      _ = maxD := Int.floor_intCast maxD
  · rw [ratTrunc_of_nonneg dA h0, ratTrunc_of_nonneg dB (le_trans h0 hd)]
    exact Int.floor_le_floor hd

theorem expCap_constant (maxD : Int) (dA dB : ℚ) (hd : dA ≤ dB) (h0 : 0 ≤ dA)
    (hmax : (maxD : ℚ) ≤ 2 ^ 63 - 1) (hpos : 0 < maxD)
    (h : (if (maxD : ℚ) < dA then maxD
          else if ((2 : ℚ) ^ 63 - 1) < dA then maxD else ratTrunc dA) = maxD) :
    (if (maxD : ℚ) < dB then maxD
     else if ((2 : ℚ) ^ 63 - 1) < dB then maxD else ratTrunc dB) = maxD := by
  rw [expResult_eq maxD dA hmax] at h
  rw [expResult_eq maxD dB hmax]
  by_cases h1 : (maxD : ℚ) < dA
  · rw [if_pos (lt_of_lt_of_le h1 hd)]
  · rw [if_neg h1, ratTrunc_of_nonneg dA h0] at h
    have hfl : (maxD : ℚ) ≤ dA := by
      calc (maxD : ℚ) = ((⌊dA⌋ : Int) : ℚ) := by exact_mod_cast h.symm
        _ ≤ dA := Int.floor_le dA
    by_cases h2 : (maxD : ℚ) < dB
    · rw [if_pos h2]
    · rw [if_neg h2]
      have hdb : dB = (maxD : ℚ) := le_antisymm (le_of_not_lt h2) (le_trans hfl hd)
      rw [hdb, ratTrunc_of_nonneg _ (by exact_mod_cast le_of_lt hpos),
          Int.floor_intCast]

theorem fibSeq_le_succ : ∀ n : Nat, fibSeq n ≤ fibSeq (n + 1)
  | 0 => by simp [fibSeq]
  | 1 => by simp [fibSeq]
  | n + 2 => by
    have h1 : fibSeq n ≤ fibSeq (n + 1) := fibSeq_le_succ n
    have h2 : fibSeq (n + 1) ≤ fibSeq (n + 2) := fibSeq_le_succ (n + 1)
    have e1 : fibSeq (n + 2) = fibSeq n + fibSeq (n + 1) := rfl
    have e2 : fibSeq (n + 3) = fibSeq (n + 1) + fibSeq (n + 2) := rfl
    show fibSeq (n + 2) ≤ fibSeq (n + 3)
    omega

theorem fibSeq_mono {m n : Nat} (h : m ≤ n) : fibSeq m ≤ fibSeq n := by
  induction n with
  | zero => rw [Nat.le_zero.mp h]
  | succ k ih =>
    cases Nat.eq_or_lt_of_le h with
    | inl heq => rw [heq]
    | inr hlt => exact le_trans (ih (Nat.lt_succ_iff.mp hlt)) (fibSeq_le_succ k)

/-- C6 (counterexample): `ExponentialBackoff` with `MaxDelay = 0` does not
return the uncapped computed delay: base 5, multiplier 2, attempt 2 computes
`5 * 2 = 10`, but the unconditional cap comparison returns `MaxDelay = 0`. -/
theorem exponentialBackoff_zeroMax_counterexample :
    ExponentialBackoff.NextDelay ⟨5, 0, 2⟩ 2 = 0 ∧
    (5 : ℚ) * 2 ^ ((2 : Int) - 1).toNat = 10 ∧ (0 : Int) ≠ 10 := by
  refine ⟨?_, by norm_num, by norm_num⟩
  norm_num [ExponentialBackoff.NextDelay, ratTrunc]

/-- C6 (amended): for attempt ≥ 1, Linear and Fibonacci cap at their
configured maximum only when it is non-zero, returning the uncapped
computed delay when it is zero; Exponential also never exceeds a positive
maximum, but applies its cap comparison unconditionally, so with
`MaxDelay = 0` every positive computed delay is clamped to 0 instead of
being returned uncapped. -/
theorem backoffMaxDelay_amended (l : LinearBackoff) (f : FibonacciBackoff)
    (e : ExponentialBackoff) (a : Int) (ha : 1 ≤ a) :
    (0 < l.MaxDelay → l.NextDelay a ≤ l.MaxDelay) ∧
    (l.MaxDelay = 0 → l.NextDelay a = l.BaseDelay + (a - 1) * l.Increment) ∧
    (0 < f.MaxDelay → f.NextDelay a ≤ f.MaxDelay) ∧
    (f.MaxDelay = 0 → f.NextDelay a = (fibSeq (a - 1).toNat : Int) * f.BaseDelay) ∧
    (0 < e.MaxDelay → e.NextDelay a ≤ e.MaxDelay) ∧
    (e.MaxDelay = 0 → 0 < (e.BaseDelay : ℚ) * e.Multiplier ^ (a - 1).toNat →
        e.NextDelay a = 0) := by
  have ha0 : ¬ a ≤ 0 := by omega
  refine ⟨?_, ?_, ?_, ?_, ?_, ?_⟩
  · intro hmax
    unfold LinearBackoff.NextDelay
    rw [if_neg ha0]
    exact capIf_le _ _ hmax
  · intro hz
    unfold LinearBackoff.NextDelay
    rw [if_neg ha0]
    exact capIf_zero _ _ hz
  · intro hmax
    unfold FibonacciBackoff.NextDelay
    rw [if_neg ha0]
    exact capIf_le _ _ hmax
  · intro hz
    unfold FibonacciBackoff.NextDelay
    rw [if_neg ha0]
    exact capIf_zero _ _ hz
  · intro hmax
    unfold ExponentialBackoff.NextDelay
    rw [if_neg ha0]
    exact expCap_le _ _ hmax
  · intro hz hpos
    unfold ExponentialBackoff.NextDelay
    rw [if_neg ha0, hz]
    rw [if_pos (by exact_mod_cast hpos)]

/-- C6 witness: Linear backoff base 1, increment 1, max 10 at attempt 3
stays within the cap. -/
theorem backoffMaxDelay_amended_witness :
    LinearBackoff.NextDelay ⟨1, 1, 10⟩ 3 ≤ 10 :=
  (backoffMaxDelay_amended ⟨1, 1, 10⟩ ⟨1, 10⟩ ⟨1, 10, 2⟩ 3 (by norm_num)).1
    (by norm_num)

/-- C8: with non-negative base and increment and multiplier ≥ 1, the
Linear, Fibonacci and Exponential delays are non-decreasing in the attempt
number for attempts ≥ 1, and once the returned delay equals a configured
(positive) cap it stays at the cap for all later attempts.  For the
exponential variant the cap is assumed to fit in an `int64`, as
`time.Duration` guarantees. -/
theorem backoff_monotone (l : LinearBackoff) (f : FibonacciBackoff)
    (e : ExponentialBackoff) (a b : Int) (ha : 1 ≤ a) (hab : a ≤ b)
    (hli : 0 ≤ l.Increment) (hfb : 0 ≤ f.BaseDelay)
    (heb : 0 ≤ e.BaseDelay) (hem : 1 ≤ e.Multiplier)
    (hemax : e.MaxDelay < 2 ^ 63) :
    (l.NextDelay a ≤ l.NextDelay b) ∧
    (0 < l.MaxDelay → l.NextDelay a = l.MaxDelay → l.NextDelay b = l.MaxDelay) ∧
    (f.NextDelay a ≤ f.NextDelay b) ∧
    (0 < f.MaxDelay → f.NextDelay a = f.MaxDelay → f.NextDelay b = f.MaxDelay) ∧
    (e.NextDelay a ≤ e.NextDelay b) ∧
    (0 < e.MaxDelay → e.NextDelay a = e.MaxDelay → e.NextDelay b = e.MaxDelay) := by
  have ha0 : ¬ a ≤ 0 := by omega
  have hb0 : ¬ b ≤ 0 := by omega
  have hlin : l.BaseDelay + (a - 1) * l.Increment
      ≤ l.BaseDelay + (b - 1) * l.Increment := by
    have := mul_le_mul_of_nonneg_right (show a - 1 ≤ b - 1 by omega) hli
    omega
  have hfibn : (a - 1).toNat ≤ (b - 1).toNat := by omega
  have hfib : (fibSeq (a - 1).toNat : Int) * f.BaseDelay
      ≤ (fibSeq (b - 1).toNat : Int) * f.BaseDelay :=
    mul_le_mul_of_nonneg_right (by exact_mod_cast fibSeq_mono hfibn) hfb
  have hexp : (e.BaseDelay : ℚ) * e.Multiplier ^ (a - 1).toNat
      ≤ (e.BaseDelay : ℚ) * e.Multiplier ^ (b - 1).toNat :=
    mul_le_mul_of_nonneg_left (pow_le_pow_right₀ hem hfibn) (by exact_mod_cast heb)
  have hexp0 : (0 : ℚ) ≤ (e.BaseDelay : ℚ) * e.Multiplier ^ (a - 1).toNat :=
    mul_nonneg (by exact_mod_cast heb) (pow_nonneg (le_trans zero_le_one hem) _)
  have hmaxq : ((e.MaxDelay : ℚ)) ≤ 2 ^ 63 - 1 := by
    have : e.MaxDelay ≤ 2 ^ 63 - 1 := by omega
    calc (e.MaxDelay : ℚ) ≤ ((2 ^ 63 - 1 : Int) : ℚ) := by exact_mod_cast this
      _ = 2 ^ 63 - 1 := by push_cast; ring
  refine ⟨?_, ?_, ?_, ?_, ?_, ?_⟩
  · unfold LinearBackoff.NextDelay
    rw [if_neg ha0, if_neg hb0]
    exact capIf_monotone _ _ _ hlin
  · intro hmax h
    unfold LinearBackoff.NextDelay at h ⊢
    rw [if_neg ha0] at h
    rw [if_neg hb0]
    exact capIf_constant _ _ _ hlin hmax h
  · unfold FibonacciBackoff.NextDelay
    rw [if_neg ha0, if_neg hb0]
    exact capIf_monotone _ _ _ hfib
  · intro hmax h
    unfold FibonacciBackoff.NextDelay at h ⊢
    rw [if_neg ha0] at h
    rw [if_neg hb0]
    exact capIf_constant _ _ _ hfib hmax h
  · unfold ExponentialBackoff.NextDelay
    rw [if_neg ha0, if_neg hb0]
    exact expCap_monotone _ _ _ hexp hexp0 hmaxq
  · intro hmax h
    unfold ExponentialBackoff.NextDelay at h ⊢
    rw [if_neg ha0] at h
    rw [if_neg hb0]
    exact expCap_constant _ _ _ hexp hexp0 hmaxq hmax h

/-- C8 witness: Exponential backoff base 1, max 100, multiplier 2 is
non-decreasing from attempt 2 to attempt 5. -/
theorem backoff_monotone_witness :
    ExponentialBackoff.NextDelay ⟨1, 100, 2⟩ 2
      ≤ ExponentialBackoff.NextDelay ⟨1, 100, 2⟩ 5 :=
  (backoff_monotone ⟨1, 1, 10⟩ ⟨1, 10⟩ ⟨1, 100, 2⟩ 2 5 (by norm_num) (by norm_num)
    (by norm_num) (by norm_num) (by norm_num) (by norm_num) (by norm_num)).2.2.2.2.1

/-- C9 (counterexample): with wrapped delay 10ns, pct = 1/4 and the
smallest random draw, the returned delay is 7, strictly below the claimed
lower bound `max(0, (1-pct)*d) = 7.5` — the duration conversion truncates
the jittered value. -/
theorem jitterBackoff_claim_counterexample :
    (NewJitterBackoff (some fun _ => 10) (1 / 4)).NextDelay 1 0 = 7 ∧
    ((7 : ℚ) < (1 - 1 / 4) * 10) := by
  constructor
  · norm_num [NewJitterBackoff, JitterBackoff.NextDelay, ratTrunc]
  · norm_num

/-- C9 (amended): the construction clamps the percentage into [0,1]; a nil
wrapped strategy returns 0, pct = 0 returns exactly the wrapped delay, and
a zero wrapped delay returns 0.  For pct in [0,1], a non-negative wrapped
delay d and any admissible random draw, the returned delay is non-negative,
at most `(1+pct)*d`, and strictly greater than `(1-pct)*d - 1`: the exact
jittered value lies in `[max(0,(1-pct)*d), (1+pct)*d)`, but the integer
duration conversion truncates, so the result may fall below `(1-pct)*d` by
less than one nanosecond. -/
theorem jitterBackoff_amended (f : Int → Int) (pct : ℚ) (attempt : Int) (n : Nat)
    (hp0 : 0 ≤ pct) (hp1 : pct ≤ 1) (hn : n ≤ 2 ^ 53 - 2) (hd : 0 ≤ f attempt) :
    (∀ q : ℚ, 0 ≤ (NewJitterBackoff (some f) q).Jitter
        ∧ (NewJitterBackoff (some f) q).Jitter ≤ 1) ∧
    (JitterBackoff.NextDelay ⟨none, pct⟩ attempt n = 0) ∧
    (JitterBackoff.NextDelay ⟨some f, 0⟩ attempt n = f attempt) ∧
    (f attempt = 0 → JitterBackoff.NextDelay ⟨some f, pct⟩ attempt n = 0) ∧
    ((1 - pct) * (f attempt : ℚ) - 1
        < ((JitterBackoff.NextDelay ⟨some f, pct⟩ attempt n : Int) : ℚ)) ∧
    (((JitterBackoff.NextDelay ⟨some f, pct⟩ attempt n : Int) : ℚ)
        ≤ (1 + pct) * (f attempt : ℚ)) ∧
    (0 ≤ JitterBackoff.NextDelay ⟨some f, pct⟩ attempt n) := by
  have hdq : (0 : ℚ) ≤ (f attempt : ℚ) := by exact_mod_cast hd
  have hbounds : ((1 - pct) * (f attempt : ℚ) - 1
        < ((JitterBackoff.NextDelay ⟨some f, pct⟩ attempt n : Int) : ℚ)) ∧
      (((JitterBackoff.NextDelay ⟨some f, pct⟩ attempt n : Int) : ℚ)
        ≤ (1 + pct) * (f attempt : ℚ)) ∧
      (0 ≤ JitterBackoff.NextDelay ⟨some f, pct⟩ attempt n) := by
    by_cases hz : f attempt = 0 ∨ pct = 0
    · have hres : JitterBackoff.NextDelay ⟨some f, pct⟩ attempt n = f attempt := by
        simp only [JitterBackoff.NextDelay]
        rw [if_pos hz]
      rw [hres]
      have hpd : 0 ≤ pct * (f attempt : ℚ) := mul_nonneg hp0 hdq
      refine ⟨by nlinarith, by nlinarith, hd⟩
    · push_neg at hz
      have hd2 : (0 : ℚ) < (f attempt : ℚ) := by
        rcases lt_or_eq_of_le hdq with h | h
        · exact h
        · exact absurd (by exact_mod_cast h.symm) hz.1
      have hM : (0 : ℚ) < 2 ^ 53 - 1 := by norm_num
      have hrf0 : 0 ≤ (n : ℚ) / (2 ^ 53 - 1) :=
        div_nonneg (Nat.cast_nonneg n) (le_of_lt hM)
      have hrf1 : (n : ℚ) / (2 ^ 53 - 1) < 1 := by
        rw [div_lt_one hM]
        have h1 : (n : ℚ) ≤ ((2 ^ 53 - 2 : Nat) : ℚ) := by exact_mod_cast hn
        have h2 : ((2 ^ 53 - 2 : Nat) : ℚ) = 2 ^ 53 - 2 := by norm_num
        linarith
      have hpd : 0 ≤ (f attempt : ℚ) * pct := mul_nonneg hdq hp0
      have hjlo : -((f attempt : ℚ) * pct)
          ≤ ((n : ℚ) / (2 ^ 53 - 1) * 2 - 1) * ((f attempt : ℚ) * pct) := by
        nlinarith
      have hjhi : ((n : ℚ) / (2 ^ 53 - 1) * 2 - 1) * ((f attempt : ℚ) * pct)
          ≤ (f attempt : ℚ) * pct := by
        nlinarith
      have hfin0 : (0 : ℚ) ≤ (f attempt : ℚ)
          + ((n : ℚ) / (2 ^ 53 - 1) * 2 - 1) * ((f attempt : ℚ) * pct) := by
        nlinarith
      have hres : JitterBackoff.NextDelay ⟨some f, pct⟩ attempt n
          = ratTrunc ((f attempt : ℚ)
              + ((n : ℚ) / (2 ^ 53 - 1) * 2 - 1) * ((f attempt : ℚ) * pct)) := by
        simp only [JitterBackoff.NextDelay]
        rw [if_neg (by tauto), if_neg (not_lt.mpr hfin0)]
      rw [hres, ratTrunc_of_nonneg _ hfin0]
      have hfl1 := Int.sub_one_lt_floor ((f attempt : ℚ)
          + ((n : ℚ) / (2 ^ 53 - 1) * 2 - 1) * ((f attempt : ℚ) * pct))
      have hfl2 := Int.floor_le ((f attempt : ℚ)
          + ((n : ℚ) / (2 ^ 53 - 1) * 2 - 1) * ((f attempt : ℚ) * pct))
      refine ⟨by nlinarith, by nlinarith, Int.floor_nonneg.mpr hfin0⟩
  refine ⟨?_, rfl, ?_, ?_, hbounds.1, hbounds.2.1, hbounds.2.2⟩
  · intro q
    unfold NewJitterBackoff
    split_ifs with h1 h2
    · exact ⟨le_refl 0, zero_le_one⟩
    · exact ⟨zero_le_one, le_refl 1⟩
    · exact ⟨le_of_not_lt h1, le_of_not_lt h2⟩
  · simp [JitterBackoff.NextDelay]
  · intro h0
    simp [JitterBackoff.NextDelay, h0]

/-- C9 witness: wrapped delay 10ns, pct 1/2, draw 0 — the returned delay is
non-negative and at most `(1 + 1/2) * 10 = 15`. -/
theorem jitterBackoff_amended_witness :
    ((JitterBackoff.NextDelay ⟨some fun _ => (10 : Int), 1 / 2⟩ 1 0 : Int) : ℚ)
      ≤ (1 + 1 / 2) * ((10 : Int) : ℚ) :=
  (jitterBackoff_amended (fun _ => 10) (1 / 2) 1 0 (by norm_num) (by norm_num)
    (by norm_num) (by norm_num)).2.2.2.2.2.1

end RetryModel
